import Mathlib

/-!
Verification of the repository-rules evaluation engine of DesktopGit.

The definitions below are a shallow embedding of the `RepoRules*`
classes found in `app/src/main-process/menu/menu-event.ts`:
`RepoRuleEnforced`, `IRepoRulesMetadataRule`, `RepoRulesMetadataFailures`,
`RepoRulesMetadataRules` (with `push`, `hasRules`, `getFailedRules`) and
the `RepoRulesInfo` aggregate.  Mutable class state is embedded as
explicit values: a method that mutates `this` becomes a function from
the old state to the new state, and the TypeScript union of boolean and
the literal bypass string becomes a two-constructor inductive type.
-/

/-- Embedding of the type `RepoRuleEnforced`, the union of boolean and the
literal bypass string: `status b` is the boolean member `b`, `bypass` is
the string member. -/
inductive RepoRuleEnforced where
  | status : Bool → RepoRuleEnforced
  | bypass : RepoRuleEnforced
  deriving DecidableEq, Repr

/-- Embedding of `type RepoRulesMetadataMatcher = (toMatch: string) => boolean`. -/
def RepoRulesMetadataMatcher : Type := String → Bool

/-- Embedding of `interface IRepoRulesMetadataRule`. -/
structure IRepoRulesMetadataRule where
  enforced : RepoRuleEnforced
  matcher : RepoRulesMetadataMatcher
  humanDescription : String

/-- Embedding of `class RepoRulesMetadataFailures` with its two
array fields, both initialized empty. -/
structure RepoRulesMetadataFailures where
  failed : List String
  bypassed : List String
  deriving DecidableEq, Repr

/-- The field initializers of `RepoRulesMetadataFailures`:
`failed = []`, `bypassed = []`. -/
def RepoRulesMetadataFailures.new : RepoRulesMetadataFailures :=
  ⟨[], []⟩

/-- Embedding of the state of `class RepoRulesMetadataRules`: its single
private field `rules: IRepoRulesMetadataRule[]`. -/
structure RepoRulesMetadataRules where
  rules : List IRepoRulesMetadataRule

/-- The field initializer of `RepoRulesMetadataRules`: `rules = []`. -/
def RepoRulesMetadataRules.new : RepoRulesMetadataRules :=
  ⟨[]⟩

/-- Embedding of `RepoRulesMetadataRules.push(rule?)`: an `undefined`
argument is `none` and leaves the state unchanged; otherwise the rule is
appended to the stored list. -/
def RepoRulesMetadataRules.push (s : RepoRulesMetadataRules)
    (rule : Option IRepoRulesMetadataRule) : RepoRulesMetadataRules :=
  match rule with
  | none => s
  | some r => ⟨s.rules ++ [r]⟩

/-- Embedding of the getter `RepoRulesMetadataRules.hasRules`:
`this.rules.length > 0`. -/
def RepoRulesMetadataRules.hasRules (s : RepoRulesMetadataRules) : Bool :=
  s.rules.length > 0

/-- The `for (const rule of this.rules)` loop body of `getFailedRules`,
threading the `failures` accumulator exactly as the source mutates it:
a rule whose matcher rejects `toMatch` appends its description to
`bypassed` when `enforced` is the bypass value and to `failed` otherwise. -/
def getFailedRulesLoop (toMatch : String) :
    List IRepoRulesMetadataRule → RepoRulesMetadataFailures →
    RepoRulesMetadataFailures
  | [], failures => failures
  | rule :: rest, failures =>
    if !(rule.matcher toMatch) then
      if rule.enforced = RepoRuleEnforced.bypass then
        getFailedRulesLoop toMatch rest
          ⟨failures.failed, failures.bypassed ++ [rule.humanDescription]⟩
      else
        getFailedRulesLoop toMatch rest
          ⟨failures.failed ++ [rule.humanDescription], failures.bypassed⟩
    else
      getFailedRulesLoop toMatch rest failures

/-- Embedding of `RepoRulesMetadataRules.getFailedRules(toMatch)`:
allocate a fresh `RepoRulesMetadataFailures` and run the loop. -/
def RepoRulesMetadataRules.getFailedRules (s : RepoRulesMetadataRules)
    (toMatch : String) : RepoRulesMetadataFailures :=
  getFailedRulesLoop toMatch s.rules RepoRulesMetadataFailures.new

/-- Whether a rule's matcher rejects the candidate string. -/
def ruleFails (r : IRepoRulesMetadataRule) (c : String) : Bool :=
  !(r.matcher c)

/-- Whether a rule carries the bypass enforcement value. -/
def isBypassRule (r : IRepoRulesMetadataRule) : Bool :=
  r.enforced = RepoRuleEnforced.bypass

/-- Descriptions of the rules that fail on `c` and are not bypassable;
the source pushes exactly these onto `failures.failed`, in order. -/
def failedOf (rules : List IRepoRulesMetadataRule) (c : String) : List String :=
  (rules.filter (fun r => ruleFails r c && !(isBypassRule r))).map
    (fun r => r.humanDescription)

/-- Descriptions of the rules that fail on `c` and are bypassable;
the source pushes exactly these onto `failures.bypassed`, in order. -/
def bypassedOf (rules : List IRepoRulesMetadataRule) (c : String) : List String :=
  (rules.filter (fun r => ruleFails r c && isBypassRule r)).map
    (fun r => r.humanDescription)

lemma getFailedRulesLoop_eq (c : String) (rules : List IRepoRulesMetadataRule)
    (acc : RepoRulesMetadataFailures) :
    getFailedRulesLoop c rules acc =
      ⟨acc.failed ++ failedOf rules c, acc.bypassed ++ bypassedOf rules c⟩ := by
  induction rules generalizing acc with
  | nil =>
    simp [getFailedRulesLoop, failedOf, bypassedOf]
  | cons r rest ih =>
    simp only [getFailedRulesLoop, failedOf, bypassedOf, List.filter_cons]
    rcases hm : ruleFails r c with _ | _
    · rw [show (!(r.matcher c)) = ruleFails r c from rfl, hm]
      simp only [Bool.false_eq_true, if_false, Bool.false_and]
      rw [ih]
      simp [failedOf, bypassedOf]
    · rw [show (!(r.matcher c)) = ruleFails r c from rfl, hm]
      simp only [if_true, Bool.true_and]
      rcases hb : isBypassRule r with _ | _
      · have hbne : ¬ (r.enforced = RepoRuleEnforced.bypass) := by
          intro h
          simp [isBypassRule, h] at hb
        rw [if_neg hbne, ih]
        simp [failedOf, bypassedOf, hb]
      · have hbeq : r.enforced = RepoRuleEnforced.bypass := by
          by_contra h
          simp [isBypassRule, h] at hb
        rw [if_pos hbeq, ih]
        simp [failedOf, bypassedOf, hb]

/-- Closed form of `getFailedRules`: the failed list is exactly the
in-order descriptions of non-matching non-bypass rules, the bypassed
list exactly those of non-matching bypass rules. -/
lemma getFailedRules_eq (s : RepoRulesMetadataRules) (c : String) :
    s.getFailedRules c = ⟨failedOf s.rules c, bypassedOf s.rules c⟩ := by
  rw [RepoRulesMetadataRules.getFailedRules, getFailedRulesLoop_eq]
  simp [RepoRulesMetadataFailures.new]

lemma length_filter_partition {α : Type} (p : α → Bool) (l : List α) :
    (l.filter p).length + (l.filter (fun a => !(p a))).length = l.length := by
  induction l with
  | nil => simp
  | cons a l ih =>
    rcases h : p a with _ | _ <;>
      · simp [List.filter_cons, h]
        omega

lemma filter_partition_perm {α : Type} (p : α → Bool) (l : List α) :
    (l.filter p ++ l.filter (fun a => !(p a))).Perm l := by
  induction l with
  | nil => simp
  | cons a l ih =>
    rcases h : p a with _ | _
    · simp only [List.filter_cons, h, Bool.not_false, if_true, if_false,
        Bool.false_eq_true]
      exact (List.perm_middle).trans (ih.cons a)
    · simp only [List.filter_cons, h, Bool.not_true, if_true, if_false,
        Bool.false_eq_true, List.cons_append]
      exact ih.cons a

lemma filter_ext_mem {α : Type} {p q : α → Bool} {l : List α}
    (h : ∀ a ∈ l, p a = q a) : l.filter p = l.filter q := by
  induction l with
  | nil => rfl
  | cons a l ih =>
    have ha := h a (List.mem_cons_self a l)
    have ih2 := ih (fun b hb => h b (List.mem_cons_of_mem a hb))
    simp [List.filter_cons, ha, ih2]

lemma filter_and_eq {α : Type} (p q : α → Bool) (l : List α) :
    l.filter (fun a => p a && q a) = (l.filter p).filter q := by
  induction l with
  | nil => rfl
  | cons a l ih =>
    rcases hp : p a with _ | _ <;> rcases hq : q a with _ | _ <;>
      simp [List.filter_cons, hp, hq, ih]

lemma getFailedRules_length (s : RepoRulesMetadataRules) (c : String) :
    (s.getFailedRules c).failed.length + (s.getFailedRules c).bypassed.length =
      (s.rules.filter (fun r => ruleFails r c)).length := by
  rw [getFailedRules_eq]
  simp only [List.length_map,
    filter_and_eq (fun r => ruleFails r c) (fun r => !(isBypassRule r)),
    filter_and_eq (fun r => ruleFails r c) isBypassRule, failedOf, bypassedOf]
  have h := length_filter_partition isBypassRule
    (s.rules.filter (fun r => ruleFails r c))
  omega

lemma getFailedRules_perm (s : RepoRulesMetadataRules) (c : String) :
    ((s.getFailedRules c).failed ++ (s.getFailedRules c).bypassed).Perm
      ((s.rules.filter (fun r => ruleFails r c)).map
        (fun r => r.humanDescription)) := by
  rw [getFailedRules_eq]
  simp only [failedOf, bypassedOf,
    filter_and_eq (fun r => ruleFails r c) (fun r => !(isBypassRule r)),
    filter_and_eq (fun r => ruleFails r c) isBypassRule]
  rw [← List.map_append]
  apply List.Perm.map
  have h := filter_partition_perm
    (fun r : IRepoRulesMetadataRule => !(isBypassRule r))
    (s.rules.filter (fun r => ruleFails r c))
  have e : (fun a : IRepoRulesMetadataRule => !(!(isBypassRule a))) =
      isBypassRule := by
    funext a
    simp [Bool.not_not]
  rw [e] at h
  exact h

/-- Descriptions of the rules that fail on `c` and carry the boolean
enforcement value true, i.e. the Required level of the specification. -/
def requiredOf (rules : List IRepoRulesMetadataRule) (c : String) :
    List String :=
  (rules.filter (fun r =>
    ruleFails r c && decide (r.enforced = RepoRuleEnforced.status true))).map
    (fun r => r.humanDescription)

/-- Claim C1: for every rule set whose stored rules are all Required or
Bypassable and every candidate, `getFailedRules` sends the descriptions of
exactly the failing Required rules to `failed` (in order, never to
`bypassed`) and the descriptions of exactly the failing Bypassable rules
to `bypassed`; rules whose matcher accepts contribute to neither list. -/
theorem c1_evaluate_classifies_by_enforcement (s : RepoRulesMetadataRules)
    (c : String)
    (hinv : ∀ r ∈ s.rules, r.enforced = RepoRuleEnforced.status true ∨
      r.enforced = RepoRuleEnforced.bypass) :
    (s.getFailedRules c).failed = requiredOf s.rules c ∧
    (s.getFailedRules c).bypassed = bypassedOf s.rules c := by
  rw [getFailedRules_eq]
  refine ⟨?_, rfl⟩
  simp only [failedOf, requiredOf]
  have e : s.rules.filter (fun r => ruleFails r c && !(isBypassRule r)) =
      s.rules.filter (fun r =>
        ruleFails r c && decide (r.enforced = RepoRuleEnforced.status true)) := by
    apply filter_ext_mem
    intro r hr
    simp only [isBypassRule]
    rcases hinv r hr with h | h <;> rw [h] <;> rfl
  rw [e]

/-- Claim C1 witness: a concrete two-rule set, one Required and one
Bypassable, both failing on the candidate. -/
theorem c1_evaluate_classifies_by_enforcement_witness :
    ((RepoRulesMetadataRules.mk
        [⟨RepoRuleEnforced.status true, fun _ => false, "must match A"⟩,
         ⟨RepoRuleEnforced.bypass, fun _ => false, "must match B"⟩]).getFailedRules
        "x").failed = ["must match A"] ∧
    ((RepoRulesMetadataRules.mk
        [⟨RepoRuleEnforced.status true, fun _ => false, "must match A"⟩,
         ⟨RepoRuleEnforced.bypass, fun _ => false, "must match B"⟩]).getFailedRules
        "x").bypassed = ["must match B"] := by
  have h := c1_evaluate_classifies_by_enforcement
    (RepoRulesMetadataRules.mk
      [⟨RepoRuleEnforced.status true, fun _ => false, "must match A"⟩,
       ⟨RepoRuleEnforced.bypass, fun _ => false, "must match B"⟩]) "x"
    (by
      intro r hr
      rcases List.mem_cons.mp hr with h1 | hr2
      · exact Or.inl (h1 ▸ rfl)
      rcases List.mem_cons.mp hr2 with h2 | hr3
      · exact Or.inr (h2 ▸ rfl)
      · exact absurd hr3 (List.not_mem_nil r))
  simpa [requiredOf, bypassedOf, ruleFails, isBypassRule,
    List.filter_cons] using h

/-- Claim C2: pushing three failing rules R1, R2, R3 and evaluating visits
every rule (no short-circuit on the first failure) and yields the
descriptions in insertion order within each enforcement list, whatever mix
of enforcement levels the three rules carry. -/
theorem c2_order_preserved_no_short_circuit
    (r1 r2 r3 : IRepoRulesMetadataRule) (c : String)
    (h1 : r1.matcher c = false) (h2 : r2.matcher c = false)
    (h3 : r3.matcher c = false) :
    ((((RepoRulesMetadataRules.new.push (some r1)).push (some r2)).push
        (some r3)).getFailedRules c).failed =
      ([r1, r2, r3].filter (fun r => !(isBypassRule r))).map
        (fun r => r.humanDescription) ∧
    ((((RepoRulesMetadataRules.new.push (some r1)).push (some r2)).push
        (some r3)).getFailedRules c).bypassed =
      ([r1, r2, r3].filter isBypassRule).map (fun r => r.humanDescription) := by
  have hrules : (((RepoRulesMetadataRules.new.push (some r1)).push
      (some r2)).push (some r3)).rules = [r1, r2, r3] := rfl
  rw [getFailedRules_eq, hrules]
  constructor
  · simp [failedOf, ruleFails, h1, h2, h3, List.filter_cons]
  · simp [bypassedOf, ruleFails, h1, h2, h3, List.filter_cons]

/-- Claim C2 witness: three concrete failing rules, Required, Bypassable,
Required, in that insertion order. -/
theorem c2_order_preserved_no_short_circuit_witness :
    ((((RepoRulesMetadataRules.new.push
        (some ⟨RepoRuleEnforced.status true, fun _ => false, "d1"⟩)).push
        (some ⟨RepoRuleEnforced.bypass, fun _ => false, "d2"⟩)).push
        (some ⟨RepoRuleEnforced.status true, fun _ => false, "d3"⟩)).getFailedRules
        "x").failed = ["d1", "d3"] ∧
    ((((RepoRulesMetadataRules.new.push
        (some ⟨RepoRuleEnforced.status true, fun _ => false, "d1"⟩)).push
        (some ⟨RepoRuleEnforced.bypass, fun _ => false, "d2"⟩)).push
        (some ⟨RepoRuleEnforced.status true, fun _ => false, "d3"⟩)).getFailedRules
        "x").bypassed = ["d2"] := by
  have h := c2_order_preserved_no_short_circuit
    ⟨RepoRuleEnforced.status true, fun _ => false, "d1"⟩
    ⟨RepoRuleEnforced.bypass, fun _ => false, "d2"⟩
    ⟨RepoRuleEnforced.status true, fun _ => false, "d3"⟩
    "x" rfl rfl rfl
  simpa [isBypassRule, List.filter_cons] using h

/-- Claim C5: pushing the undefined-equivalent argument (`none`) is a
no-op: the state is unchanged, hence `hasRules` and every subsequent
`getFailedRules` result are unchanged. -/
theorem c5_push_undefined_noop (s : RepoRulesMetadataRules) :
    s.push none = s ∧ (s.push none).hasRules = s.hasRules ∧
    ∀ c, (s.push none).getFailedRules c = s.getFailedRules c :=
  ⟨rfl, rfl, fun _ => rfl⟩

/-- Claim C6: a rule set with zero stored rules reports `hasRules = false`
and `getFailedRules` returns empty `failed` and `bypassed` lists on any
candidate. -/
theorem c6_empty_ruleset_reports_nothing (s : RepoRulesMetadataRules)
    (h : s.rules = []) :
    s.hasRules = false ∧
    ∀ c, (s.getFailedRules c).failed = [] ∧
      (s.getFailedRules c).bypassed = [] := by
  obtain ⟨rules⟩ := s
  cases h
  exact ⟨rfl, fun _ => ⟨rfl, rfl⟩⟩

/-- Claim C6 witness: the freshly constructed rule set with its field
initializer, evaluated on the empty string. -/
theorem c6_empty_ruleset_reports_nothing_witness :
    RepoRulesMetadataRules.new.hasRules = false ∧
    (RepoRulesMetadataRules.new.getFailedRules "").failed = [] ∧
    (RepoRulesMetadataRules.new.getFailedRules "").bypassed = [] :=
  ⟨(c6_empty_ruleset_reports_nothing RepoRulesMetadataRules.new rfl).1,
   (c6_empty_ruleset_reports_nothing RepoRulesMetadataRules.new rfl).2 ""⟩

/-- Claim C7: `getFailedRules` is a deterministic pure function of the
stored rules and the candidate alone: two states with the same stored
rules (in particular, the same unmutated state queried twice) give
identical reports. -/
theorem c7_evaluate_deterministic (s₁ s₂ : RepoRulesMetadataRules)
    (c : String) (h : s₁.rules = s₂.rules) :
    s₁.getFailedRules c = s₂.getFailedRules c := by
  obtain ⟨l₁⟩ := s₁
  obtain ⟨l₂⟩ := s₂
  cases h
  rfl

/-- Claim C7 witness: two separately constructed states holding the same
rule list. -/
theorem c7_evaluate_deterministic_witness :
    (RepoRulesMetadataRules.mk
        [⟨RepoRuleEnforced.bypass, fun _ => false, "d"⟩]).getFailedRules "abc" =
      (RepoRulesMetadataRules.new.push
        (some ⟨RepoRuleEnforced.bypass, fun _ => false, "d"⟩)).getFailedRules
        "abc" :=
  c7_evaluate_deterministic
    (RepoRulesMetadataRules.mk [⟨RepoRuleEnforced.bypass, fun _ => false, "d"⟩])
    (RepoRulesMetadataRules.new.push
      (some ⟨RepoRuleEnforced.bypass, fun _ => false, "d"⟩))
    "abc" rfl

/-- Claim C8: `getFailedRules` is total over any string input and its
result depends on the candidate only through each stored matcher's
verdict: candidates on which every stored matcher agrees (for example the
empty string and a control-character string accepted alike) produce
identical reports, and the report is always a well-formed pair of lists
whose combined length is bounded by the number of stored rules. -/
theorem c8_evaluate_total_matcher_determined (s : RepoRulesMetadataRules)
    (c₁ c₂ : String) (h : ∀ r ∈ s.rules, r.matcher c₁ = r.matcher c₂) :
    s.getFailedRules c₁ = s.getFailedRules c₂ ∧
    (s.getFailedRules c₁).failed.length +
      (s.getFailedRules c₁).bypassed.length ≤ s.rules.length := by
  constructor
  · rw [getFailedRules_eq, getFailedRules_eq]
    have hf : ∀ r ∈ s.rules, ruleFails r c₁ = ruleFails r c₂ := by
      intro r hr
      simp only [ruleFails, h r hr]
    have e1 : failedOf s.rules c₁ = failedOf s.rules c₂ := by
      simp only [failedOf]
      rw [filter_ext_mem (fun r hr => by rw [hf r hr])]
    have e2 : bypassedOf s.rules c₁ = bypassedOf s.rules c₂ := by
      simp only [bypassedOf]
      rw [filter_ext_mem (fun r hr => by rw [hf r hr])]
    rw [e1, e2]
  · rw [getFailedRules_length]
    have hp := length_filter_partition (fun r => ruleFails r c₁) s.rules
    omega

/-- Claim C8 witness: a one-rule set whose matcher accepts both the empty
string and a string holding a control character. -/
theorem c8_evaluate_total_matcher_determined_witness :
    (RepoRulesMetadataRules.mk
        [⟨RepoRuleEnforced.status true,
          fun t => decide (t.length < 100), "short"⟩]).getFailedRules "" =
      (RepoRulesMetadataRules.mk
        [⟨RepoRuleEnforced.status true,
          fun t => decide (t.length < 100), "short"⟩]).getFailedRules "\x01" ∧
    ((RepoRulesMetadataRules.mk
        [⟨RepoRuleEnforced.status true,
          fun t => decide (t.length < 100), "short"⟩]).getFailedRules
        "").failed.length +
      ((RepoRulesMetadataRules.mk
        [⟨RepoRuleEnforced.status true,
          fun t => decide (t.length < 100), "short"⟩]).getFailedRules
        "").bypassed.length ≤ 1 :=
  c8_evaluate_total_matcher_determined
    (RepoRulesMetadataRules.mk
      [⟨RepoRuleEnforced.status true,
        fun t => decide (t.length < 100), "short"⟩])
    "" "\x01"
    (by
      intro r hr
      rcases List.mem_cons.mp hr with h1 | hr2
      · rw [h1]
        rfl
      · exact absurd hr2 (List.not_mem_nil r))

/-- Claim C9: a stored rule that fails on the candidate contributes to
`bypassed` exactly when its `enforced` field is the bypass value; every
other enforcement value, including the boolean false that represents an
unenforced (Off) rule, sends its description to `failed`. -/
theorem c9_bypass_value_selects_list (rest : List IRepoRulesMetadataRule)
    (r : IRepoRulesMetadataRule) (c : String) (h : r.matcher c = false) :
    (RepoRulesMetadataRules.mk (r :: rest)).getFailedRules c =
      if r.enforced = RepoRuleEnforced.bypass then
        ⟨((RepoRulesMetadataRules.mk rest).getFailedRules c).failed,
         r.humanDescription ::
           ((RepoRulesMetadataRules.mk rest).getFailedRules c).bypassed⟩
      else
        ⟨r.humanDescription ::
           ((RepoRulesMetadataRules.mk rest).getFailedRules c).failed,
         ((RepoRulesMetadataRules.mk rest).getFailedRules c).bypassed⟩ := by
  by_cases hb : r.enforced = RepoRuleEnforced.bypass
  · rw [if_pos hb, getFailedRules_eq, getFailedRules_eq]
    simp [failedOf, bypassedOf, List.filter_cons, ruleFails, h,
      isBypassRule, hb]
  · rw [if_neg hb, getFailedRules_eq, getFailedRules_eq]
    simp [failedOf, bypassedOf, List.filter_cons, ruleFails, h,
      isBypassRule, hb]

/-- Claim C9 witness: a stored rule whose `enforced` field is the boolean
false (an Off rule nevertheless stored) is reported in `failed`. -/
theorem c9_bypass_value_selects_list_witness :
    (RepoRulesMetadataRules.mk
        [⟨RepoRuleEnforced.status false, fun _ => false,
          "off rule"⟩]).getFailedRules "x" = ⟨["off rule"], []⟩ := by
  have h := c9_bypass_value_selects_list []
    ⟨RepoRuleEnforced.status false, fun _ => false, "off rule"⟩ "x" rfl
  simpa using h

/-- Claim C10: over any rule set and candidate, the failed and bypassed
description counts add up to the number of stored rules whose matcher
rejects the candidate, and the returned descriptions are, up to the
partition into the two lists, exactly the descriptions of those
non-matching rules — a matching rule never contributes an entry. -/
theorem c10_report_counts_nonmatching_rules (s : RepoRulesMetadataRules)
    (c : String) :
    (s.getFailedRules c).failed.length +
        (s.getFailedRules c).bypassed.length =
      (s.rules.filter (fun r => !(r.matcher c))).length ∧
    ((s.getFailedRules c).failed ++ (s.getFailedRules c).bypassed).Perm
      ((s.rules.filter (fun r => !(r.matcher c))).map
        (fun r => r.humanDescription)) :=
  ⟨getFailedRules_length s c, getFailedRules_perm s c⟩

/-- Claim C3 counterexample: `push` stores a rule whose `enforced` field
is the boolean false — the Off level — so the invariant that every stored
rule is Required or Bypassable is not preserved by `push` itself. -/
theorem c3_counterexample_push_stores_off_rule :
    ¬ (∀ r ∈ (RepoRulesMetadataRules.new.push
        (some ⟨RepoRuleEnforced.status false, fun _ => true,
          "off rule"⟩)).rules,
        r.enforced = RepoRuleEnforced.status true ∨
          r.enforced = RepoRuleEnforced.bypass) := by
  intro h
  have hmem : (⟨RepoRuleEnforced.status false, fun _ => true,
      "off rule"⟩ : IRepoRulesMetadataRule) ∈
      (RepoRulesMetadataRules.new.push
        (some ⟨RepoRuleEnforced.status false, fun _ => true,
          "off rule"⟩)).rules :=
    List.mem_singleton.mpr rfl
  rcases h _ hmem with h2 | h2 <;> exact absurd h2 (by simp)

/-- Claim C3 (amended): construction stores no rule at all, and `push`
preserves the all-Required-or-Bypassable invariant whenever the pushed
rule itself is Required or Bypassable (or absent) — the Off-filtering the
specification describes happens in the builder before `push` is called,
not inside `push`, which stores any present rule unexamined. -/
theorem c3_amended_invariant_preserved_for_non_off_pushes
    (s : RepoRulesMetadataRules) (rule : Option IRepoRulesMetadataRule)
    (hs : ∀ r ∈ s.rules, r.enforced = RepoRuleEnforced.status true ∨
      r.enforced = RepoRuleEnforced.bypass)
    (hr : ∀ r, rule = some r → r.enforced = RepoRuleEnforced.status true ∨
      r.enforced = RepoRuleEnforced.bypass) :
    (∀ r ∈ RepoRulesMetadataRules.new.rules,
      r.enforced = RepoRuleEnforced.status true ∨
        r.enforced = RepoRuleEnforced.bypass) ∧
    (∀ r ∈ (s.push rule).rules,
      r.enforced = RepoRuleEnforced.status true ∨
        r.enforced = RepoRuleEnforced.bypass) := by
  constructor
  · intro r hmem
    exact absurd hmem (List.not_mem_nil r)
  · intro r hmem
    match rule with
    | none => exact hs r hmem
    | some r0 =>
      rcases List.mem_append.mp hmem with hmem2 | hmem2
      · exact hs r hmem2
      · rw [List.mem_singleton.mp hmem2]
        exact hr r0 rfl

/-- Claim C3 amended witness: pushing a concrete Bypassable rule onto the
freshly constructed set keeps every stored rule Required or Bypassable. -/
theorem c3_amended_invariant_preserved_for_non_off_pushes_witness :
    (∀ r ∈ RepoRulesMetadataRules.new.rules,
      r.enforced = RepoRuleEnforced.status true ∨
        r.enforced = RepoRuleEnforced.bypass) ∧
    (∀ r ∈ (RepoRulesMetadataRules.new.push
        (some ⟨RepoRuleEnforced.bypass, fun _ => true, "d"⟩)).rules,
      r.enforced = RepoRuleEnforced.status true ∨
        r.enforced = RepoRuleEnforced.bypass) :=
  c3_amended_invariant_preserved_for_non_off_pushes
    RepoRulesMetadataRules.new
    (some ⟨RepoRuleEnforced.bypass, fun _ => true, "d"⟩)
    (fun r hmem => absurd hmem (List.not_mem_nil r))
    (fun r hr => Or.inr (by
      cases hr
      rfl))

/-- Modelled from the spec: the `ConfigurationError` taxonomy of the
builder, whose only member is `InvalidPattern` (a raw rule's pattern
cannot be compiled into a matcher).  The builder itself
(`RuleSetBuilder`) is not part of the sampled source files. -/
inductive ConfigurationError where
  | invalidPattern
  deriving DecidableEq, Repr

/-- Modelled from the spec: the fixed category tag present on each raw
rule, covering the three scalar-flag categories and the four metadata
categories. -/
inductive RuleCategory where
  | basicCommitWarning
  | creationRestricted
  | pullRequestRequired
  | commitMessagePattern
  | commitAuthorEmailPattern
  | committerEmailPattern
  | branchNamePattern
  deriving DecidableEq, Repr

/-- Whether a category is one of the four metadata (pattern) categories. -/
def RuleCategory.isMetadata : RuleCategory → Bool
  | RuleCategory.commitMessagePattern => true
  | RuleCategory.commitAuthorEmailPattern => true
  | RuleCategory.committerEmailPattern => true
  | RuleCategory.branchNamePattern => true
  | _ => false

/-- Modelled from the spec: a raw rule record from the configuration
collaborator — a category tag, a pattern string, a negation flag and an
actor-bypassable flag. -/
structure RawRuleConfig where
  category : RuleCategory
  pattern : String
  negated : Bool
  actorBypassable : Bool
  deriving DecidableEq, Repr

/-- Embedding of `class RepoRulesInfo`: three scalar enforcement flags,
each initialized to false, and four metadata rule sets, each initialized
empty. -/
structure RepoRulesInfo where
  basicCommitWarning : RepoRuleEnforced
  creationRestricted : RepoRuleEnforced
  pullRequestRequired : RepoRuleEnforced
  commitMessagePatterns : RepoRulesMetadataRules
  commitAuthorEmailPatterns : RepoRulesMetadataRules
  committerEmailPatterns : RepoRulesMetadataRules
  branchNamePatterns : RepoRulesMetadataRules

/-- The field initializers of `RepoRulesInfo`: scalar flags false,
metadata rule sets empty. -/
def RepoRulesInfo.new : RepoRulesInfo :=
  ⟨RepoRuleEnforced.status false, RepoRuleEnforced.status false,
   RepoRuleEnforced.status false, RepoRulesMetadataRules.new,
   RepoRulesMetadataRules.new, RepoRulesMetadataRules.new,
   RepoRulesMetadataRules.new⟩

/-- Modelled from the spec: enforcement-level resolution for the current
actor — bypass when the rule is marked actor-bypassable and the actor is
bypass-eligible, Required (boolean true) otherwise. -/
def resolveEnforcement (r : RawRuleConfig) (eligible : Bool) :
    RepoRuleEnforced :=
  if r.actorBypassable && eligible then RepoRuleEnforced.bypass
  else RepoRuleEnforced.status true

/-- Modelled from the spec: the human-readable description computed from
the pattern and the negation flag. -/
def describeRule (r : RawRuleConfig) : String :=
  if r.negated then "must not match " ++ r.pattern
  else "must match " ++ r.pattern

/-- Modelled from the spec: matcher construction from the pattern and
negation fields.  Pattern compilation itself is a parameter `compile`
standing for the regular-expression engine; a pattern it rejects yields
no matcher, and the negation flag wraps the compiled matcher. -/
def buildMatcher (compile : String → Option (String → Bool))
    (r : RawRuleConfig) : Option RepoRulesMetadataMatcher :=
  match compile r.pattern with
  | none => none
  | some m => some (fun t => if r.negated then !(m t) else m t)

/-- Store a resolved enforcement level in the scalar flag named by a
non-metadata category; metadata categories leave the aggregate unchanged. -/
def setScalar (info : RepoRulesInfo) (cat : RuleCategory)
    (lvl : RepoRuleEnforced) : RepoRulesInfo :=
  match cat with
  | RuleCategory.basicCommitWarning =>
    ⟨lvl, info.creationRestricted, info.pullRequestRequired,
     info.commitMessagePatterns, info.commitAuthorEmailPatterns,
     info.committerEmailPatterns, info.branchNamePatterns⟩
  | RuleCategory.creationRestricted =>
    ⟨info.basicCommitWarning, lvl, info.pullRequestRequired,
     info.commitMessagePatterns, info.commitAuthorEmailPatterns,
     info.committerEmailPatterns, info.branchNamePatterns⟩
  | RuleCategory.pullRequestRequired =>
    ⟨info.basicCommitWarning, info.creationRestricted, lvl,
     info.commitMessagePatterns, info.commitAuthorEmailPatterns,
     info.committerEmailPatterns, info.branchNamePatterns⟩
  | _ => info

/-- Push a constructed metadata rule into the rule set named by a
metadata category; non-metadata categories leave the aggregate unchanged. -/
def addMetadataRule (info : RepoRulesInfo) (cat : RuleCategory)
    (rule : IRepoRulesMetadataRule) : RepoRulesInfo :=
  match cat with
  | RuleCategory.commitMessagePattern =>
    ⟨info.basicCommitWarning, info.creationRestricted,
     info.pullRequestRequired, info.commitMessagePatterns.push (some rule),
     info.commitAuthorEmailPatterns, info.committerEmailPatterns,
     info.branchNamePatterns⟩
  | RuleCategory.commitAuthorEmailPattern =>
    ⟨info.basicCommitWarning, info.creationRestricted,
     info.pullRequestRequired, info.commitMessagePatterns,
     info.commitAuthorEmailPatterns.push (some rule),
     info.committerEmailPatterns, info.branchNamePatterns⟩
  | RuleCategory.committerEmailPattern =>
    ⟨info.basicCommitWarning, info.creationRestricted,
     info.pullRequestRequired, info.commitMessagePatterns,
     info.commitAuthorEmailPatterns,
     info.committerEmailPatterns.push (some rule),
     info.branchNamePatterns⟩
  | RuleCategory.branchNamePattern =>
    ⟨info.basicCommitWarning, info.creationRestricted,
     info.pullRequestRequired, info.commitMessagePatterns,
     info.commitAuthorEmailPatterns, info.committerEmailPatterns,
     info.branchNamePatterns.push (some rule)⟩
  | _ => info

/-- Modelled from the spec: the builder loop over the raw rules.  A
scalar-category rule resolves the enforcement level into its flag; a
metadata-category rule compiles its matcher — aborting the whole build
with `ConfigurationError.invalidPattern` when compilation fails — and
pushes the resulting rule into its category's rule set. -/
def buildLoop (compile : String → Option (String → Bool)) (eligible : Bool) :
    List RawRuleConfig → RepoRulesInfo →
    Except ConfigurationError RepoRulesInfo
  | [], info => Except.ok info
  | r :: rest, info =>
    if r.category.isMetadata then
      match buildMatcher compile r with
      | none => Except.error ConfigurationError.invalidPattern
      | some m =>
        buildLoop compile eligible rest
          (addMetadataRule info r.category
            ⟨resolveEnforcement r eligible, m, describeRule r⟩)
    else
      buildLoop compile eligible rest
        (setScalar info r.category (resolveEnforcement r eligible))

/-- Modelled from the spec: `RuleSetBuilder.build(rawRules,
actorIsBypassEligible)`, producing either a fully assembled
`RepoRulesInfo` or a `ConfigurationError`, never a partial result. -/
def build (compile : String → Option (String → Bool))
    (rawRules : List RawRuleConfig) (actorIsBypassEligible : Bool) :
    Except ConfigurationError RepoRulesInfo :=
  buildLoop compile actorIsBypassEligible rawRules RepoRulesInfo.new

lemma buildLoop_error_of_bad_pattern
    (compile : String → Option (String → Bool)) (eligible : Bool)
    (raws : List RawRuleConfig) (info : RepoRulesInfo)
    (h : ∃ r ∈ raws, r.category.isMetadata = true ∧
      compile r.pattern = none) :
    buildLoop compile eligible raws info =
      Except.error ConfigurationError.invalidPattern := by
  induction raws generalizing info with
  | nil =>
    obtain ⟨r, hmem, _⟩ := h
    exact absurd hmem (List.not_mem_nil r)
  | cons a rest ih =>
    obtain ⟨r, hmem, hmeta, hnone⟩ := h
    rcases List.mem_cons.mp hmem with heq | hmem2
    · subst heq
      rw [buildLoop, if_pos hmeta]
      have : buildMatcher compile r = none := by
        rw [buildMatcher, hnone]
      rw [this]
    · rw [buildLoop]
      by_cases hm : a.category.isMetadata = true
      · rw [if_pos hm]
        rcases hbm : buildMatcher compile a with _ | m
        · rfl
        · exact ih _ ⟨r, hmem2, hmeta, hnone⟩
      · rw [if_neg hm]
        exact ih _ ⟨r, hmem2, hmeta, hnone⟩

/-- Claim C4: whenever some raw rule of a metadata category has a pattern
the regular-expression engine rejects, the whole `build` aborts with
`ConfigurationError.invalidPattern` and no rule aggregate — in particular
no partial one with the bad rule dropped — is produced. -/
theorem c4_invalid_pattern_aborts_build
    (compile : String → Option (String → Bool))
    (raws : List RawRuleConfig) (eligible : Bool)
    (h : ∃ r ∈ raws, r.category.isMetadata = true ∧
      compile r.pattern = none) :
    build compile raws eligible =
      Except.error ConfigurationError.invalidPattern :=
  buildLoop_error_of_bad_pattern compile eligible raws RepoRulesInfo.new h

/-- Claim C4 witness: a two-rule configuration in which the second rule's
pattern is rejected by a concrete compiler; the first, well-formed rule is
not enough to make the build return a partial aggregate. -/
theorem c4_invalid_pattern_aborts_build_witness :
    build (fun p => if p = "(" then none else some (fun _ => true))
      [⟨RuleCategory.branchNamePattern, "ok", false, false⟩,
       ⟨RuleCategory.commitMessagePattern, "(", false, false⟩] true =
      Except.error ConfigurationError.invalidPattern :=
  c4_invalid_pattern_aborts_build
    (fun p => if p = "(" then none else some (fun _ => true))
    [⟨RuleCategory.branchNamePattern, "ok", false, false⟩,
     ⟨RuleCategory.commitMessagePattern, "(", false, false⟩] true
    ⟨⟨RuleCategory.commitMessagePattern, "(", false, false⟩,
     by
       right
       exact List.mem_singleton.mpr rfl,
     rfl, by
       simp⟩
